import Mathlib

/-!
Verification of the flow-aggregation engine in `src/main.rs` of
`rust-data-processing`.  The per-line parsing, composite-key construction,
merge-or-insert aggregation, run counters and metadata computation of
`process_syslog_files` are embedded as executable Lean definitions; the
spec's testable properties are settled as theorems about them.

Rust `u64` arithmetic wraps modulo `2 ^ 64` (the `+=` updates in the merge
branch), so every counter update is taken modulo `M = 2 ^ 64`.
-/

namespace RustDP

/-- The size of the `u64` value space; Rust unsigned 64-bit addition wraps
modulo this constant. -/
def M : Nat := 2 ^ 64

/-- One aggregated flow, mirroring `struct Record` in `src/main.rs`
(lines 12-28).  The four traffic counters and `count` are `u64` values,
modelled as naturals below `M`. -/
structure Record where
  key : String
  source_ip : String
  destination_ip : String
  packets_in : Nat
  bytes_in : Nat
  packets_out : Nat
  bytes_out : Nat
  count : Nat
  deriving DecidableEq, Repr

/-- Rust `str::split(',')` on a list of characters: fields are the maximal
runs between commas; the empty input yields one empty field, and a trailing
comma yields a trailing empty field, exactly as in Rust. -/
def splitFields : List Char → List (List Char)
  | [] => [[]]
  | c :: cs =>
    let rest := splitFields cs
    if c = ',' then [] :: rest
    else
      match rest with
      | [] => [[c]]
      | f :: fs => (c :: f) :: fs

/-- Rust `str::trim` on a list of characters: strip leading and trailing
whitespace (the source trims Unicode whitespace; the inputs considered
contain only ASCII whitespace, where the two notions agree). -/
def trimChars (l : List Char) : List Char :=
  ((l.dropWhile Char.isWhitespace).reverse.dropWhile Char.isWhitespace).reverse

/-- `line.trim().split(',').collect()` from line 69 of `src/main.rs`. -/
def splitLine (line : String) : List String :=
  (splitFields (trimChars line.data)).map String.mk

/-- Rust `str::parse::<u64>`: an optional leading `+` sign, then one or more
ASCII decimal digits, with value below `2 ^ 64`; anything else fails. -/
def parseU64 (s : String) : Option Nat :=
  let cs : List Char :=
    match s.data with
    | '+' :: rest => rest
    | cs => cs
  if cs.isEmpty then none
  else if cs.all Char.isDigit then
    let v := cs.foldl (fun a c => a * 10 + (c.toNat - 48)) 0
    if v < M then some v else none
  else none

/-- The three rejection signals of spec section 7; they name the three
`continue` sites of the read loop (lines 70-92 of `src/main.rs`). -/
inductive ParseError where
  | MalformedLine
  | MissingCounter
  | InvalidNumber
  deriving DecidableEq, Repr

/-- The nine fields consumed from one accepted line (lines 74-82). -/
structure Parsed where
  firewall_ip : String
  source_ip : String
  destination_ip : String
  destination_port : String
  protocol_id : String
  packets_in : Nat
  bytes_in : Nat
  packets_out : Nat
  bytes_out : Nat
  deriving DecidableEq, Repr

/-- The line parser (lines 69-92 of `src/main.rs`): split the trimmed line
on commas; fewer than 13 fields rejects the line, an empty numeric field at
positions 9-12 rejects it, and a failed `u64` parse of any of the four
numeric fields rejects it; otherwise the nine consumed fields are returned. -/
def parseLine (line : String) : Except ParseError Parsed :=
  let parts := splitLine line
  if parts.length < 13 then .error .MalformedLine
  else
    let firewall_ip := parts.getD 1 ""
    let source_ip := parts.getD 3 ""
    let destination_ip := parts.getD 4 ""
    let destination_port := parts.getD 5 ""
    let protocol_id := parts.getD 6 ""
    let packets_in := parts.getD 9 ""
    let bytes_in := parts.getD 10 ""
    let packets_out := parts.getD 11 ""
    let bytes_out := parts.getD 12 ""
    if packets_in = "" ∨ bytes_in = "" ∨ packets_out = "" ∨ bytes_out = "" then
      .error .MissingCounter
    else
      match parseU64 packets_in, parseU64 bytes_in,
            parseU64 packets_out, parseU64 bytes_out with
      | some a, some b, some c, some d =>
          .ok ⟨firewall_ip, source_ip, destination_ip, destination_port,
               protocol_id, a, b, c, d⟩
      | _, _, _, _ => .error .InvalidNumber

/-- The composite key of line 96: the firewall IP, source IP, destination
IP, destination port and protocol identifier joined with `_`. -/
def keyOf (p : Parsed) : String :=
  p.firewall_ip ++ "_" ++ p.source_ip ++ "_" ++ p.destination_ip ++ "_" ++
    p.destination_port ++ "_" ++ p.protocol_id

/-- The five key fields of a parsed line, in key order. -/
def keyFields (p : Parsed) : List String :=
  [p.firewall_ip, p.source_ip, p.destination_ip, p.destination_port, p.protocol_id]

/-- The `HashMap<String, Record>` aggregation table, modelled as an
association list with unique keys; all access is by string equality on the
key, as in the hash map. -/
abbrev Table := List (String × Record)

/-- Lookup by key in the aggregation table. -/
def lookupRec : Table → String → Option Record
  | [], _ => none
  | (k, r) :: t, key => if k = key then some r else lookupRec t key

/-- The `or_insert` record of lines 106-115: counters from the parsed line,
`count` starting at 1, `key` equal to the map key. -/
def insertRecord (key : String) (p : Parsed) : Record :=
  { key := key
    source_ip := p.source_ip
    destination_ip := p.destination_ip
    packets_in := p.packets_in
    bytes_in := p.bytes_in
    packets_out := p.packets_out
    bytes_out := p.bytes_out
    count := 1 }

/-- The `and_modify` body of lines 99-105: the four traffic counters and
`count` are bumped with wrapping 64-bit addition; the other fields are left
untouched. -/
def mergeRecord (r : Record) (p : Parsed) : Record :=
  { r with
    packets_in := (r.packets_in + p.packets_in) % M
    bytes_in := (r.bytes_in + p.bytes_in) % M
    packets_out := (r.packets_out + p.packets_out) % M
    bytes_out := (r.bytes_out + p.bytes_out) % M
    count := (r.count + 1) % M }

/-- `master_record.entry(key).and_modify(..).or_insert(..)` (lines 98-115):
merge into the existing record for the key, or append a fresh one. -/
def mergeOrInsert : Table → String → Parsed → Table
  | [], key, p => [(key, insertRecord key p)]
  | (k, r) :: t, key, p =>
    if k = key then (k, mergeRecord r p) :: t
    else (k, r) :: mergeOrInsert t key p

/-- The mutable state of one run of `process_syslog_files`: the aggregation
table, the `connections` and `session_close` counters (both `u64`), and the
`files_processed` list (lines 54-57). -/
structure RunState where
  master_record : Table
  connections : Nat
  session_close : Nat
  files_processed : List String
  deriving DecidableEq, Repr

/-- The state at the start of a run: empty table, zero counters, no files. -/
def initState : RunState := ⟨[], 0, 0, []⟩

/-- The body of the read loop for one line (lines 67-116): `connections`
always increments (wrapping `u64`); if the line parses, `session_close`
increments and the parsed fields are merged into the table under the
composite key; otherwise the state is otherwise unchanged. -/
def processLine (s : RunState) (line : String) : RunState :=
  let s1 := { s with connections := (s.connections + 1) % M }
  match parseLine line with
  | .error _ => s1
  | .ok p =>
    { s1 with
      session_close := (s1.session_close + 1) % M
      master_record := mergeOrInsert s1.master_record (keyOf p) p }

/-- Process the lines of one file in order. -/
def processLines (lines : List String) (s : RunState) : RunState :=
  lines.foldl processLine s

/-- One file (line 63-116): its path is pushed onto `files_processed`
(line 65), then its lines are drained in order. -/
def processFile (s : RunState) (f : String × List String) : RunState :=
  processLines f.2 { s with files_processed := s.files_processed ++ [f.1] }

/-- The directory scan (lines 59-120): each file, as a path paired with its
list of lines, is fully drained before the next.  A directory that is empty
or cannot be listed yields the empty file list and leaves the initial
state. -/
def processSyslogFiles (files : List (String × List String)) : RunState :=
  files.foldl processFile initState

/-- A minimal model of an IEEE-754 `f64` value: finite values as exact
rationals, plus the NaN and infinity sentinels.  It carries exactly the
cases the metadata block of `src/main.rs` can reach (division and
multiplication of non-negative finite values and their degenerate results);
rounding of finite results and signs of unreachable branches are not
modelled. -/
inductive FVal where
  | num : Rat → FVal
  | nan : FVal
  | inf : FVal
  | ninf : FVal
  deriving DecidableEq, Repr

/-- `f64` division: finite by finite is exact; division by zero gives NaN
for a zero numerator and a signed infinity otherwise, as in IEEE-754. -/
def FVal.div : FVal → FVal → FVal
  | FVal.num a, FVal.num b =>
    if b = 0 then
      if a = 0 then FVal.nan else if 0 < a then FVal.inf else FVal.ninf
    else FVal.num (a / b)
  | FVal.nan, _ => FVal.nan
  | _, FVal.nan => FVal.nan
  | FVal.inf, _ => FVal.inf
  | FVal.ninf, _ => FVal.ninf
  | _, FVal.inf => FVal.num 0
  | _, FVal.ninf => FVal.num 0

/-- `f64` multiplication: finite by finite is exact; NaN propagates;
infinite operands collapse to infinity (their signs are unreachable here). -/
def FVal.mul : FVal → FVal → FVal
  | FVal.num a, FVal.num b => FVal.num (a * b)
  | FVal.nan, _ => FVal.nan
  | _, FVal.nan => FVal.nan
  | _, _ => FVal.inf

/-- The metadata block (lines 128-143 of `src/main.rs`).  The source
formats `sessionClose` and the throughput into strings; the embedding keeps
their numeric components (`sessionCloseCount` with `sessionClosePct`, and
`connectionsPerSecond`), since float-to-string formatting is outside the
model. -/
structure Metadata where
  startTime : Nat
  endTime : Nat
  elapsedTime : FVal
  totalConnections : Nat
  sessionCloseCount : Nat
  sessionClosePct : FVal
  flows : Nat
  filesProcessed : List String
  connectionsPerSecond : FVal
  deriving DecidableEq, Repr

/-- Lines 125-143 of `src/main.rs`: elapsed seconds from millisecond
timestamps, throughput as `connections` over elapsed seconds, the
acceptance percentage as `session_close` over `connections` times 100, the
flow count as the table size, and the processed-file list. -/
def computeMetadata (start_time end_time : Nat) (s : RunState) : Metadata :=
  let elapsed : FVal := FVal.num (((end_time - start_time : Nat) : Rat) / 1000)
  { startTime := start_time
    endTime := end_time
    elapsedTime := elapsed
    totalConnections := s.connections
    sessionCloseCount := s.session_close
    sessionClosePct :=
      FVal.mul (FVal.div (FVal.num (s.session_close : Rat))
        (FVal.num (s.connections : Rat))) (FVal.num 100)
    flows := s.master_record.length
    filesProcessed := s.files_processed
    connectionsPerSecond := FVal.div (FVal.num (s.connections : Rat)) elapsed }

/-- A line is accepted when the parser returns a field tuple rather than a
rejection signal. -/
def acceptedLine (l : String) : Bool :=
  match parseLine l with
  | .ok _ => true
  | .error _ => false

/-- The number of lines of a list that pass validation. -/
def acceptedCount (lines : List String) : Nat :=
  (lines.filter (fun l => acceptedLine l)).length

/-- The number of lines of a list that are rejected by some validation
rule. -/
def rejectedCount (lines : List String) : Nat :=
  (lines.filter (fun l => !acceptedLine l)).length

/-- The accepted lines of a list that aggregate under the key `k`, as
parsed tuples, in processing order. -/
def contribs (lines : List String) (k : String) : List Parsed :=
  lines.filterMap (fun l =>
    match parseLine l with
    | .ok p => if keyOf p = k then some p else none
    | .error _ => none)

/-- One merge-or-insert step on the record stored under a fixed key. -/
def contribStep (k : String) (o : Option Record) (p : Parsed) : Option Record :=
  match o with
  | none => some (insertRecord k p)
  | some r => some (mergeRecord r p)

/-- Fold a list of contributions into the record stored under the key `k`. -/
def applyContribs (o : Option Record) (k : String) (ps : List Parsed) : Option Record :=
  ps.foldl (contribStep k) o

/-- The order-insensitive projection of a flow record: its four traffic
counters and its contribution count. -/
def counterView (r : Record) : Nat × Nat × Nat × Nat × Nat :=
  (r.packets_in, r.bytes_in, r.packets_out, r.bytes_out, r.count)

/-- File A's line of the spec's round-trip scenario. -/
def lineA : String := "fw1,_,_,src1,dst1,80,tcp,_,_,10,1000,5,500"

/-- File B's line of the spec's round-trip scenario. -/
def lineB : String := "fw1,_,_,src1,dst1,80,tcp,_,_,3,300,2,200"

/-- A valid line whose packets-in counter is the largest `u64` value. -/
def lineC : String := "x,fw,x,s,d,80,t,x,x,18446744073709551615,0,0,0"

/-- A valid line with one packet in, aggregating under the same key as
`lineC`. -/
def lineD : String := "x,fw,x,s,d,80,t,x,x,1,0,0,0"

/-- A valid line with small counters under the key of `lineC`. -/
def goodLine : String := "x,fw,x,s,d,80,t,x,x,1,1,1,1"

/-- A valid line whose firewall field `a_b` contains the key delimiter. -/
def lineG : String := "x,a_b,x,c,d,80,t,x,x,1,1,1,1"

/-- A valid line whose source field `b_c` contains the key delimiter; its
composite key collides with that of `lineG` although the five key fields
differ. -/
def lineH : String := "x,a,x,b_c,d,80,t,x,x,1,1,1,1"

/-! ### Helper lemmas -/

theorem M_pos : 0 < M := by decide

theorem parseU64_lt {s : String} {n : Nat} (h : parseU64 s = some n) : n < M := by
  simp only [parseU64] at h
  split at h
  · exact absurd h (by simp)
  · split at h
    · split at h
      · exact Option.some.inj h ▸ (by assumption)
      · exact absurd h (by simp)
    · exact absurd h (by simp)

theorem parseLine_ok_bounds {l : String} {p : Parsed} (h : parseLine l = .ok p) :
    p.packets_in < M ∧ p.bytes_in < M ∧ p.packets_out < M ∧ p.bytes_out < M := by
  simp only [parseLine] at h
  split at h
  · exact absurd h (by simp)
  · split at h
    · exact absurd h (by simp)
    · split at h
      · rename_i a b c d ha hb hc hd
        cases h
        exact ⟨parseU64_lt ha, parseU64_lt hb, parseU64_lt hc, parseU64_lt hd⟩
      · exact absurd h (by simp)

theorem lookup_mergeOrInsert (t : Table) (key : String) (p : Parsed) (k : String) :
    lookupRec (mergeOrInsert t key p) k =
      if key = k then
        match lookupRec t k with
        | none => some (insertRecord key p)
        | some r => some (mergeRecord r p)
      else lookupRec t k := by
  induction t with
  | nil =>
    by_cases hk : key = k <;> simp [mergeOrInsert, lookupRec, hk]
  | cons hd tl ih =>
    obtain ⟨k1, r⟩ := hd
    simp only [mergeOrInsert]
    by_cases h1 : k1 = key
    · subst h1
      simp only [if_pos rfl, lookupRec]
      by_cases hk : k1 = k
      · subst hk
        simp
      · simp [hk]
    · rw [if_neg h1]
      simp only [lookupRec]
      by_cases hk : k1 = k
      · subst hk
        have hne : ¬ key = k1 := fun e => h1 e.symm
        simp [hne]
      · simp [hk, ih]

theorem contribs_cons (l : String) (ls : List String) (k : String) :
    contribs (l :: ls) k =
      match parseLine l with
      | .ok p => if keyOf p = k then p :: contribs ls k else contribs ls k
      | .error _ => contribs ls k := by
  simp only [contribs, List.filterMap_cons]
  cases parseLine l with
  | ok p => by_cases h : keyOf p = k <;> simp [h]
  | error e => rfl

theorem applyContribs_cons (o : Option Record) (k : String) (p : Parsed)
    (ps : List Parsed) :
    applyContribs o k (p :: ps) = applyContribs (contribStep k o p) k ps := rfl

theorem applyContribs_some (r : Record) (k : String) (ps : List Parsed) :
    applyContribs (some r) k ps = some (ps.foldl mergeRecord r) := by
  induction ps generalizing r with
  | nil => rfl
  | cons p ps ih => simpa [applyContribs_cons, contribStep] using ih (mergeRecord r p)

theorem lookup_processLines (ls : List String) (s : RunState) (k : String) :
    lookupRec (processLines ls s).master_record k =
      applyContribs (lookupRec s.master_record k) k (contribs ls k) := by
  induction ls generalizing s with
  | nil => rfl
  | cons l ls ih =>
    show lookupRec (processLines ls (processLine s l)).master_record k = _
    rw [ih]
    cases hp : parseLine l with
    | error e =>
      simp only [contribs_cons, hp]
      have hmr : (processLine s l).master_record = s.master_record := by
        simp [processLine, hp]
      rw [hmr]
    | ok p =>
      simp only [contribs_cons, hp]
      have hmr : (processLine s l).master_record =
          mergeOrInsert s.master_record (keyOf p) p := by
        simp [processLine, hp]
      rw [hmr, lookup_mergeOrInsert]
      by_cases hk : keyOf p = k
      · rw [if_pos hk, if_pos hk, hk, applyContribs_cons]
        cases lookupRec s.master_record k <;> rfl
      · rw [if_neg hk, if_neg hk]

theorem add_mod_shift (a b c n : Nat) :
    ((a + b) % n + c) % n = (a + (b + c)) % n := by
  rw [Nat.mod_add_mod, Nat.add_assoc]

theorem add_mod_shift1 (a c n : Nat) :
    ((a + 1) % n + c) % n = (a + (c + 1)) % n := by
  rw [Nat.mod_add_mod]
  congr 1
  omega

theorem foldl_merge_closed (ps : List Parsed) (r : Record)
    (h1 : r.packets_in < M) (h2 : r.bytes_in < M)
    (h3 : r.packets_out < M) (h4 : r.bytes_out < M) (h5 : r.count < M) :
    ps.foldl mergeRecord r =
      { r with
        packets_in := (r.packets_in + (ps.map Parsed.packets_in).sum) % M
        bytes_in := (r.bytes_in + (ps.map Parsed.bytes_in).sum) % M
        packets_out := (r.packets_out + (ps.map Parsed.packets_out).sum) % M
        bytes_out := (r.bytes_out + (ps.map Parsed.bytes_out).sum) % M
        count := (r.count + ps.length) % M } := by
  induction ps generalizing r with
  | nil =>
    simp [Nat.mod_eq_of_lt h1, Nat.mod_eq_of_lt h2, Nat.mod_eq_of_lt h3,
      Nat.mod_eq_of_lt h4, Nat.mod_eq_of_lt h5]
  | cons p ps ih =>
    rw [List.foldl_cons,
      ih (mergeRecord r p) (Nat.mod_lt _ M_pos) (Nat.mod_lt _ M_pos)
        (Nat.mod_lt _ M_pos) (Nat.mod_lt _ M_pos) (Nat.mod_lt _ M_pos)]
    simp only [mergeRecord, List.map_cons, List.sum_cons, List.length_cons]
    rw [add_mod_shift, add_mod_shift, add_mod_shift, add_mod_shift, add_mod_shift1]

theorem contribs_mem {lines : List String} {k : String} {p : Parsed}
    (h : p ∈ contribs lines k) :
    (∃ l, l ∈ lines ∧ parseLine l = .ok p) ∧ keyOf p = k := by
  simp only [contribs, List.mem_filterMap] at h
  obtain ⟨l, hl, hf⟩ := h
  cases hp : parseLine l with
  | error e => rw [hp] at hf; simp at hf
  | ok q =>
    rw [hp] at hf
    by_cases hk : keyOf q = k
    · simp only [if_pos hk, Option.some.injEq] at hf
      subst hf
      exact ⟨⟨l, hl, hp⟩, hk⟩
    · simp [hk] at hf

theorem contribs_bounds {lines : List String} {k : String} {p : Parsed}
    (h : p ∈ contribs lines k) :
    p.packets_in < M ∧ p.bytes_in < M ∧ p.packets_out < M ∧ p.bytes_out < M := by
  obtain ⟨⟨l, _, hp⟩, _⟩ := contribs_mem h
  exact parseLine_ok_bounds hp

theorem lookup_run_none {lines : List String} {k : String}
    (h : contribs lines k = []) :
    lookupRec (processLines lines initState).master_record k = none := by
  rw [lookup_processLines, h]
  rfl

theorem lookup_run_closed {lines : List String} {k : String} {p : Parsed}
    {rest : List Parsed} (h : contribs lines k = p :: rest) :
    lookupRec (processLines lines initState).master_record k =
      some { key := k
             source_ip := p.source_ip
             destination_ip := p.destination_ip
             packets_in := (p.packets_in + (rest.map Parsed.packets_in).sum) % M
             bytes_in := (p.bytes_in + (rest.map Parsed.bytes_in).sum) % M
             packets_out := (p.packets_out + (rest.map Parsed.packets_out).sum) % M
             bytes_out := (p.bytes_out + (rest.map Parsed.bytes_out).sum) % M
             count := (1 + rest.length) % M } := by
  have hb : p.packets_in < M ∧ p.bytes_in < M ∧ p.packets_out < M ∧ p.bytes_out < M :=
    contribs_bounds (h ▸ List.mem_cons_self p rest)
  have hc1 : (insertRecord k p).count < M := by
    show (1 : Nat) < M
    decide
  rw [lookup_processLines, h]
  show applyContribs (contribStep k none p) k rest = _
  rw [show contribStep k none p = some (insertRecord k p) from rfl, applyContribs_some]
  rw [foldl_merge_closed rest (insertRecord k p) hb.1 hb.2.1 hb.2.2.1 hb.2.2.2 hc1]
  rfl

theorem keyOf_congr {p q : Parsed} (h : keyFields p = keyFields q) :
    keyOf p = keyOf q := by
  simp only [keyFields, List.cons.injEq, and_true] at h
  obtain ⟨h1, h2, h3, h4, h5⟩ := h
  simp [keyOf, h1, h2, h3, h4, h5]

theorem contribs_of_all_ok {lines : List String} {ps : List Parsed} {k : String}
    (hps : lines.map parseLine = ps.map Except.ok)
    (hk : ∀ p ∈ ps, keyOf p = k) :
    contribs lines k = ps := by
  induction lines generalizing ps with
  | nil =>
    cases ps with
    | nil => rfl
    | cons p ps2 => simp at hps
  | cons l ls ih =>
    cases ps with
    | nil => simp at hps
    | cons p ps2 =>
      simp only [List.map_cons, List.cons.injEq] at hps
      obtain ⟨hl, hrest⟩ := hps
      simp only [contribs_cons, hl]
      rw [if_pos (hk p (List.mem_cons_self p ps2))]
      exact congrArg (p :: ·) (ih hrest (fun q hq => hk q (List.mem_cons_of_mem p hq)))

theorem sep_split {a b u v : List Char} (ha : '_' ∉ a) (hb : '_' ∉ b)
    (h : a ++ '_' :: u = b ++ '_' :: v) : a = b ∧ u = v := by
  induction a generalizing b with
  | nil =>
    cases b with
    | nil => simpa using h
    | cons c bt =>
      simp only [List.nil_append, List.cons_append, List.cons.injEq] at h
      obtain ⟨h1, h2⟩ := h
      subst h1
      exact absurd (List.mem_cons_self _ _) hb
  | cons c ct ih =>
    cases b with
    | nil =>
      simp only [List.cons_append, List.nil_append, List.cons.injEq] at h
      obtain ⟨h1, h2⟩ := h
      subst h1
      exact absurd (List.mem_cons_self _ _) ha
    | cons d bt =>
      simp only [List.cons_append, List.cons.injEq] at h
      obtain ⟨h1, h2⟩ := h
      subst h1
      have hr := ih (fun hm => ha (List.mem_cons_of_mem _ hm))
        (fun hm => hb (List.mem_cons_of_mem _ hm)) h2
      exact ⟨by rw [hr.1], hr.2⟩

theorem keyOf_inj {p q : Parsed}
    (hp : ∀ s ∈ keyFields p, '_' ∉ s.data)
    (hq : ∀ s ∈ keyFields q, '_' ∉ s.data)
    (h : keyOf p = keyOf q) : keyFields p = keyFields q := by
  have hd : (keyOf p).data = (keyOf q).data := congrArg String.data h
  have hu : ("_" : String).data = ['_'] := rfl
  simp only [keyOf, String.data_append, hu, List.append_assoc,
    List.singleton_append] at hd
  have m1 : p.firewall_ip ∈ keyFields p := by simp [keyFields]
  have m2 : p.source_ip ∈ keyFields p := by simp [keyFields]
  have m3 : p.destination_ip ∈ keyFields p := by simp [keyFields]
  have m4 : p.destination_port ∈ keyFields p := by simp [keyFields]
  have n1 : q.firewall_ip ∈ keyFields q := by simp [keyFields]
  have n2 : q.source_ip ∈ keyFields q := by simp [keyFields]
  have n3 : q.destination_ip ∈ keyFields q := by simp [keyFields]
  have n4 : q.destination_port ∈ keyFields q := by simp [keyFields]
  obtain ⟨e1, hd⟩ := sep_split (hp _ m1) (hq _ n1) hd
  obtain ⟨e2, hd⟩ := sep_split (hp _ m2) (hq _ n2) hd
  obtain ⟨e3, hd⟩ := sep_split (hp _ m3) (hq _ n3) hd
  obtain ⟨e4, e5⟩ := sep_split (hp _ m4) (hq _ n4) hd
  have f1 : p.firewall_ip = q.firewall_ip := congrArg String.mk e1
  have f2 : p.source_ip = q.source_ip := congrArg String.mk e2
  have f3 : p.destination_ip = q.destination_ip := congrArg String.mk e3
  have f4 : p.destination_port = q.destination_port := congrArg String.mk e4
  have f5 : p.protocol_id = q.protocol_id := congrArg String.mk e5
  simp [keyFields, f1, f2, f3, f4, f5]

theorem run_two_length (l1 l2 : String) (p1 p2 : Parsed)
    (h1 : parseLine l1 = .ok p1) (h2 : parseLine l2 = .ok p2) :
    ((processLines [l1, l2] initState).master_record.length = 1 ↔
      keyOf p1 = keyOf p2) := by
  have hm : (processLines [l1, l2] initState).master_record =
      mergeOrInsert (mergeOrInsert [] (keyOf p1) p1) (keyOf p2) p2 := by
    simp [processLines, processLine, h1, h2, initState]
  rw [hm]
  simp only [mergeOrInsert]
  by_cases hk : keyOf p1 = keyOf p2 <;> simp [hk]

theorem parseLine_malformed {line : String}
    (h13 : (splitLine line).length < 13) :
    parseLine line = .error .MalformedLine := by
  simp only [parseLine]
  rw [if_pos h13]

theorem parseLine_missing {line : String}
    (h13 : ¬ (splitLine line).length < 13)
    (hemp : (splitLine line).getD 9 "" = "" ∨ (splitLine line).getD 10 "" = "" ∨
      (splitLine line).getD 11 "" = "" ∨ (splitLine line).getD 12 "" = "") :
    parseLine line = .error .MissingCounter := by
  simp only [parseLine]
  rw [if_neg h13, if_pos hemp]

theorem parseLine_ok_of {line : String} {a b c d : Nat}
    (h13 : ¬ (splitLine line).length < 13)
    (hemp : ¬ ((splitLine line).getD 9 "" = "" ∨ (splitLine line).getD 10 "" = "" ∨
      (splitLine line).getD 11 "" = "" ∨ (splitLine line).getD 12 "" = ""))
    (h9 : parseU64 ((splitLine line).getD 9 "") = some a)
    (h10 : parseU64 ((splitLine line).getD 10 "") = some b)
    (h11 : parseU64 ((splitLine line).getD 11 "") = some c)
    (h12 : parseU64 ((splitLine line).getD 12 "") = some d) :
    parseLine line =
      .ok ⟨(splitLine line).getD 1 "", (splitLine line).getD 3 "",
           (splitLine line).getD 4 "", (splitLine line).getD 5 "",
           (splitLine line).getD 6 "", a, b, c, d⟩ := by
  simp only [parseLine]
  rw [if_neg h13, if_neg hemp, h9, h10, h11, h12]

theorem parseLine_invalid {line : String}
    (h13 : ¬ (splitLine line).length < 13)
    (hemp : ¬ ((splitLine line).getD 9 "" = "" ∨ (splitLine line).getD 10 "" = "" ∨
      (splitLine line).getD 11 "" = "" ∨ (splitLine line).getD 12 "" = ""))
    (hnone : parseU64 ((splitLine line).getD 9 "") = none ∨
      parseU64 ((splitLine line).getD 10 "") = none ∨
      parseU64 ((splitLine line).getD 11 "") = none ∨
      parseU64 ((splitLine line).getD 12 "") = none) :
    parseLine line = .error .InvalidNumber := by
  simp only [parseLine]
  rw [if_neg h13, if_neg hemp]
  rcases h9 : parseU64 ((splitLine line).getD 9 "") with _ | a <;>
    rcases h10 : parseU64 ((splitLine line).getD 10 "") with _ | b <;>
    rcases h11 : parseU64 ((splitLine line).getD 11 "") with _ | c <;>
    rcases h12 : parseU64 ((splitLine line).getD 12 "") with _ | d <;>
    first
      | rfl
      | (rcases hnone with e | e | e | e <;> simp_all)

theorem processLine_rejected {s : RunState} {l : String}
    (h : acceptedLine l = false) :
    processLine s l = { s with connections := (s.connections + 1) % M } := by
  simp only [acceptedLine] at h
  cases hp : parseLine l with
  | ok p => rw [hp] at h; simp at h
  | error e => simp [processLine, hp]

theorem processLine_accepted {s : RunState} {l : String} {p : Parsed}
    (hp : parseLine l = .ok p) :
    processLine s l =
      { s with
        connections := (s.connections + 1) % M
        session_close := (s.session_close + 1) % M
        master_record := mergeOrInsert s.master_record (keyOf p) p } := by
  simp [processLine, hp]

theorem acceptedCount_cons_pos {l : String} (ls : List String)
    (h : acceptedLine l = true) :
    acceptedCount (l :: ls) = acceptedCount ls + 1 := by
  simp [acceptedCount, List.filter_cons, h]

theorem acceptedCount_cons_neg {l : String} (ls : List String)
    (h : acceptedLine l = false) :
    acceptedCount (l :: ls) = acceptedCount ls := by
  simp [acceptedCount, List.filter_cons, h]

theorem count_split (lines : List String) :
    acceptedCount lines + rejectedCount lines = lines.length := by
  induction lines with
  | nil => rfl
  | cons l ls ih =>
    simp only [acceptedCount, rejectedCount, List.filter_cons] at ih ⊢
    cases h : acceptedLine l <;> simp [h] <;> omega

theorem processLines_counters (lines : List String) (s : RunState)
    (hc : s.connections < M) (hs : s.session_close < M) :
    (processLines lines s).connections = (s.connections + lines.length) % M ∧
    (processLines lines s).session_close =
      (s.session_close + acceptedCount lines) % M := by
  induction lines generalizing s with
  | nil =>
    simp [processLines, acceptedCount, Nat.mod_eq_of_lt hc, Nat.mod_eq_of_lt hs]
  | cons l ls ih =>
    show (processLines ls (processLine s l)).connections = _ ∧
      (processLines ls (processLine s l)).session_close = _
    cases hacc : acceptedLine l with
    | false =>
      rw [processLine_rejected hacc]
      obtain ⟨ihc, ihs⟩ := ih { s with connections := (s.connections + 1) % M }
        (Nat.mod_lt _ M_pos) hs
      refine ⟨?_, ?_⟩
      · rw [ihc]
        simp only [List.length_cons]
        exact add_mod_shift1 s.connections ls.length M
      · rw [ihs, acceptedCount_cons_neg ls hacc]
    | true =>
      obtain ⟨p, hp⟩ : ∃ p, parseLine l = .ok p := by
        simp only [acceptedLine] at hacc
        cases hq : parseLine l with
        | ok p => exact ⟨p, rfl⟩
        | error e => rw [hq] at hacc; simp at hacc
      rw [processLine_accepted hp]
      obtain ⟨ihc, ihs⟩ := ih
        { s with
          connections := (s.connections + 1) % M
          session_close := (s.session_close + 1) % M
          master_record := mergeOrInsert s.master_record (keyOf p) p }
        (Nat.mod_lt _ M_pos) (Nat.mod_lt _ M_pos)
      refine ⟨?_, ?_⟩
      · rw [ihc]
        simp only [List.length_cons]
        exact add_mod_shift1 s.connections ls.length M
      · rw [ihs, acceptedCount_cons_pos ls hacc]
        exact add_mod_shift1 s.session_close (acceptedCount ls) M

theorem processLines_replicate_rejected {l : String}
    (h : acceptedLine l = false) (n : Nat) (s : RunState)
    (hc : s.connections < M) :
    processLines (List.replicate n l) s =
      { s with connections := (s.connections + n) % M } := by
  induction n generalizing s with
  | zero => simp [processLines, Nat.mod_eq_of_lt hc]
  | succ n ih =>
    rw [List.replicate_succ]
    show processLines (List.replicate n l) (processLine s l) = _
    rw [processLine_rejected h, ih _ (Nat.mod_lt _ M_pos)]
    simp only [add_mod_shift1]

theorem rejectedCount_replicate {l : String} (h : acceptedLine l = false)
    (n : Nat) : rejectedCount (List.replicate n l) = n := by
  induction n with
  | zero => rfl
  | succ n ih =>
    simp only [rejectedCount, List.replicate_succ, List.filter_cons, h] at ih ⊢
    simp [ih]

theorem contribs_replicate (n : Nat) {l : String} {p : Parsed} {k : String}
    (hp : parseLine l = .ok p) (hk : keyOf p = k) :
    contribs (List.replicate n l) k = List.replicate n p := by
  induction n with
  | zero => rfl
  | succ n ih =>
    rw [List.replicate_succ, List.replicate_succ]
    simp only [contribs_cons, hp]
    rw [if_pos hk, ih]

theorem lookup_replicate_count {l : String} {p : Parsed} {k : String}
    (hp : parseLine l = .ok p) (hk : keyOf p = k) (n : Nat) (hn : n ≠ 0) :
    (lookupRec (processLines (List.replicate n l) initState).master_record k).map
      Record.count = some (n % M) := by
  obtain ⟨m, rfl⟩ : ∃ m, n = m + 1 := ⟨n - 1, by omega⟩
  have hc := contribs_replicate (m + 1) hp hk
  rw [List.replicate_succ, List.replicate_succ] at hc
  rw [List.replicate_succ, lookup_run_closed hc]
  simp only [Option.map_some', List.length_replicate, Nat.add_comm 1 m]

theorem processLine_set_files (s : RunState) (l : String) (x : List String) :
    processLine { s with files_processed := x } l =
      { processLine s l with files_processed := x } := by
  cases hp : parseLine l with
  | error e => simp [processLine, hp]
  | ok p => simp [processLine, hp]

theorem processLines_set_files (lines : List String) (s : RunState)
    (x : List String) :
    processLines lines { s with files_processed := x } =
      { processLines lines s with files_processed := x } := by
  induction lines generalizing s with
  | nil => rfl
  | cons l ls ih =>
    show processLines ls (processLine { s with files_processed := x } l) = _
    rw [processLine_set_files, ih]
    rfl

theorem processSyslogFiles_master (files : List (String × List String)) :
    (processSyslogFiles files).master_record =
      (processLines ((files.map Prod.snd).flatten) initState).master_record := by
  suffices h : ∀ (fs : List (String × List String)) (s : RunState),
      (fs.foldl processFile s).master_record =
        (processLines ((fs.map Prod.snd).flatten) s).master_record from
    h files initState
  intro fs
  induction fs with
  | nil => intro s; rfl
  | cons f fs ih =>
    intro s
    show ((fs.foldl processFile (processFile s f))).master_record = _
    rw [ih (processFile s f)]
    rw [show (((f :: fs).map Prod.snd).flatten) = f.2 ++ ((fs.map Prod.snd).flatten)
      from rfl]
    have happ : processLines (f.2 ++ ((fs.map Prod.snd).flatten)) s =
        processLines ((fs.map Prod.snd).flatten) (processLines f.2 s) := by
      simp [processLines, List.foldl_append]
    rw [happ]
    have hfile : processFile s f =
        { processLines f.2 s with
          files_processed := s.files_processed ++ [f.1] } := by
      simp [processFile, processLines_set_files]
    rw [hfile, processLines_set_files]

/-! ### Claim theorems -/

/-- Claim C1, counterexample: in the round-trip scenario the aggregation
table holds exactly one record, but nothing is stored under the key
`fw1_src1_dst1_80_tcp` claimed by the spec — the code takes the firewall
field from 0-indexed position 1, which is the placeholder in these lines. -/
theorem C1_counterexample :
    lookupRec (processSyslogFiles [("A", [lineA]), ("B", [lineB])]).master_record
      "fw1_src1_dst1_80_tcp" = none ∧
    (processSyslogFiles [("A", [lineA]), ("B", [lineB])]).master_record.length = 1 := by
  decide

/-- Claim C1, amended: in the round-trip scenario the output contains
exactly one flow record, stored under the key `__src1_dst1_80_tcp` (the
firewall field is read from 0-indexed position 1, which holds the
placeholder), with packetsIn 13, bytesIn 1300, packetsOut 7, bytesOut 700
and count 2, and the metadata reports totalConnections 2 and flows 1. -/
theorem C1_amended :
    lookupRec (processSyslogFiles [("A", [lineA]), ("B", [lineB])]).master_record
        "__src1_dst1_80_tcp" =
      some ⟨"__src1_dst1_80_tcp", "src1", "dst1", 13, 1300, 7, 700, 2⟩ ∧
    (processSyslogFiles [("A", [lineA]), ("B", [lineB])]).master_record.length = 1 ∧
    (computeMetadata 0 0
      (processSyslogFiles [("A", [lineA]), ("B", [lineB])])).totalConnections = 2 ∧
    (computeMetadata 0 0
      (processSyslogFiles [("A", [lineA]), ("B", [lineB])])).flows = 1 := by
  refine ⟨by decide, by decide, ?_, ?_⟩ <;> rfl

/-- Claim C2, counterexample: two accepted lines under one key whose
packets-in values are 18446744073709551615 and 1; the merged counter wraps
to 0, not the exact sum. -/
theorem C2_counterexample :
    (lookupRec (processLines [lineC, lineD] initState).master_record
      "fw_s_d_80_t").map Record.packets_in = some 0 ∧
    (0 : Nat) ≠ 18446744073709551615 + 1 := by
  exact ⟨by decide, by decide⟩

/-- Claim C2, amended: for every sequence of accepted lines sharing the
same five key fields, the resulting record's four counters equal the sums
of the per-line values taken modulo `2 ^ 64` (hence the exact sums whenever
no running total reaches `2 ^ 64`), and its count equals the number of
those lines modulo `2 ^ 64`. -/
theorem C2_merge_sums (lines : List String) (q : Parsed) (qs : List Parsed)
    (hps : lines.map parseLine = ((q :: qs).map Except.ok))
    (hk : ∀ p ∈ q :: qs, keyFields p = keyFields q) :
    ∃ r, lookupRec (processLines lines initState).master_record (keyOf q) = some r ∧
      r.packets_in = ((q :: qs).map Parsed.packets_in).sum % M ∧
      r.bytes_in = ((q :: qs).map Parsed.bytes_in).sum % M ∧
      r.packets_out = ((q :: qs).map Parsed.packets_out).sum % M ∧
      r.bytes_out = ((q :: qs).map Parsed.bytes_out).sum % M ∧
      r.count = (q :: qs).length % M := by
  have hc : contribs lines (keyOf q) = q :: qs :=
    contribs_of_all_ok hps (fun p hp => keyOf_congr (hk p hp))
  refine ⟨_, lookup_run_closed hc, ?_, ?_, ?_, ?_, ?_⟩ <;>
    simp [List.map_cons, List.sum_cons, List.length_cons, Nat.add_comm]

/-- Witness for C2: two copies of a concrete valid line. -/
theorem C2_merge_sums_witness :
    ∃ r, lookupRec (processLines [goodLine, goodLine] initState).master_record
        (keyOf ⟨"fw", "s", "d", "80", "t", 1, 1, 1, 1⟩) = some r ∧
      r.packets_in =
        (([⟨"fw", "s", "d", "80", "t", 1, 1, 1, 1⟩,
           ⟨"fw", "s", "d", "80", "t", 1, 1, 1, 1⟩] : List Parsed).map
          Parsed.packets_in).sum % M ∧
      r.bytes_in =
        (([⟨"fw", "s", "d", "80", "t", 1, 1, 1, 1⟩,
           ⟨"fw", "s", "d", "80", "t", 1, 1, 1, 1⟩] : List Parsed).map
          Parsed.bytes_in).sum % M ∧
      r.packets_out =
        (([⟨"fw", "s", "d", "80", "t", 1, 1, 1, 1⟩,
           ⟨"fw", "s", "d", "80", "t", 1, 1, 1, 1⟩] : List Parsed).map
          Parsed.packets_out).sum % M ∧
      r.bytes_out =
        (([⟨"fw", "s", "d", "80", "t", 1, 1, 1, 1⟩,
           ⟨"fw", "s", "d", "80", "t", 1, 1, 1, 1⟩] : List Parsed).map
          Parsed.bytes_out).sum % M ∧
      r.count =
        ([⟨"fw", "s", "d", "80", "t", 1, 1, 1, 1⟩,
          ⟨"fw", "s", "d", "80", "t", 1, 1, 1, 1⟩] : List Parsed).length % M :=
  C2_merge_sums [goodLine, goodLine] ⟨"fw", "s", "d", "80", "t", 1, 1, 1, 1⟩
    [⟨"fw", "s", "d", "80", "t", 1, 1, 1, 1⟩] (by rfl) (by decide)

/-- Claim C9, counterexample: merging a line with one packet into a record
whose packets-in counter is the largest `u64` value makes the counter wrap
to 0, which is smaller than its value before the merge. -/
theorem C9_counterexample :
    (lookupRec (processLines [lineC] initState).master_record
      "fw_s_d_80_t").map Record.packets_in = some 18446744073709551615 ∧
    (lookupRec (processLines [lineC, lineD] initState).master_record
      "fw_s_d_80_t").map Record.packets_in = some 0 ∧
    ¬ (18446744073709551615 : Nat) ≤ 0 := by
  exact ⟨by decide, by decide, by decide⟩

/-- Claim C9, amended: each of the four counters is updated by wrapping
64-bit addition; it is greater than or equal to its value before the merge
whenever the 64-bit sum does not wrap, that is, whenever the sum of the old
value and the line's value stays below `2 ^ 64`. -/
theorem C9_merge_monotone (r : Record) (p : Parsed) :
    ((mergeRecord r p).packets_in = (r.packets_in + p.packets_in) % M ∧
     (mergeRecord r p).bytes_in = (r.bytes_in + p.bytes_in) % M ∧
     (mergeRecord r p).packets_out = (r.packets_out + p.packets_out) % M ∧
     (mergeRecord r p).bytes_out = (r.bytes_out + p.bytes_out) % M) ∧
    (r.packets_in + p.packets_in < M → r.packets_in ≤ (mergeRecord r p).packets_in) ∧
    (r.bytes_in + p.bytes_in < M → r.bytes_in ≤ (mergeRecord r p).bytes_in) ∧
    (r.packets_out + p.packets_out < M → r.packets_out ≤ (mergeRecord r p).packets_out) ∧
    (r.bytes_out + p.bytes_out < M → r.bytes_out ≤ (mergeRecord r p).bytes_out) := by
  refine ⟨⟨rfl, rfl, rfl, rfl⟩, ?_, ?_, ?_, ?_⟩ <;>
    · intro h
      simp only [mergeRecord, Nat.mod_eq_of_lt h]
      omega

/-- Witness for C9: a concrete record and line with small counters. -/
theorem C9_merge_monotone_witness :
    (5 : Nat) ≤ (mergeRecord ⟨"k", "s", "d", 5, 6, 7, 8, 1⟩
      ⟨"f", "s", "d", "80", "t", 3, 3, 3, 3⟩).packets_in ∧
    (6 : Nat) ≤ (mergeRecord ⟨"k", "s", "d", 5, 6, 7, 8, 1⟩
      ⟨"f", "s", "d", "80", "t", 3, 3, 3, 3⟩).bytes_in ∧
    (7 : Nat) ≤ (mergeRecord ⟨"k", "s", "d", 5, 6, 7, 8, 1⟩
      ⟨"f", "s", "d", "80", "t", 3, 3, 3, 3⟩).packets_out ∧
    (8 : Nat) ≤ (mergeRecord ⟨"k", "s", "d", 5, 6, 7, 8, 1⟩
      ⟨"f", "s", "d", "80", "t", 3, 3, 3, 3⟩).bytes_out :=
  ⟨(C9_merge_monotone ⟨"k", "s", "d", 5, 6, 7, 8, 1⟩
      ⟨"f", "s", "d", "80", "t", 3, 3, 3, 3⟩).2.1 (by decide),
   (C9_merge_monotone ⟨"k", "s", "d", 5, 6, 7, 8, 1⟩
      ⟨"f", "s", "d", "80", "t", 3, 3, 3, 3⟩).2.2.1 (by decide),
   (C9_merge_monotone ⟨"k", "s", "d", 5, 6, 7, 8, 1⟩
      ⟨"f", "s", "d", "80", "t", 3, 3, 3, 3⟩).2.2.2.1 (by decide),
   (C9_merge_monotone ⟨"k", "s", "d", 5, 6, 7, 8, 1⟩
      ⟨"f", "s", "d", "80", "t", 3, 3, 3, 3⟩).2.2.2.2 (by decide)⟩

/-- Claim C3, counterexample: `lineG` and `lineH` are accepted lines that
disagree on the firewall and source fields, yet both produce the composite
key `a_b_c_d_80_t` (the delimiter occurs inside a field), so they are
merged into a single record with count 2. -/
theorem C3_counterexample :
    parseLine lineG = .ok ⟨"a_b", "c", "d", "80", "t", 1, 1, 1, 1⟩ ∧
    parseLine lineH = .ok ⟨"a", "b_c", "d", "80", "t", 1, 1, 1, 1⟩ ∧
    ("a_b" : String) ≠ "a" ∧
    (processLines [lineG, lineH] initState).master_record.length = 1 ∧
    (lookupRec (processLines [lineG, lineH] initState).master_record
      "a_b_c_d_80_t").map Record.count = some 2 := by
  refine ⟨by rfl, by rfl, by decide, by decide, by decide⟩

/-- Claim C3, amended: two accepted lines are merged into the same record
exactly when their joined composite keys are equal; provided none of the
five key fields contains the delimiter character, this holds if and only if
the lines agree on all five key fields, regardless of processing order. -/
theorem C3_key_partition (l1 l2 : String) (p1 p2 : Parsed)
    (h1 : parseLine l1 = .ok p1) (h2 : parseLine l2 = .ok p2)
    (hf1 : ∀ s ∈ keyFields p1, '_' ∉ s.data)
    (hf2 : ∀ s ∈ keyFields p2, '_' ∉ s.data) :
    ((processLines [l1, l2] initState).master_record.length = 1 ↔
      keyFields p1 = keyFields p2) ∧
    ((processLines [l2, l1] initState).master_record.length = 1 ↔
      keyFields p1 = keyFields p2) := by
  have hiff : keyOf p1 = keyOf p2 ↔ keyFields p1 = keyFields p2 :=
    ⟨keyOf_inj hf1 hf2, keyOf_congr⟩
  have hiff2 : keyOf p2 = keyOf p1 ↔ keyFields p1 = keyFields p2 := by
    rw [eq_comm, hiff]
  exact ⟨(run_two_length l1 l2 p1 p2 h1 h2).trans hiff,
    (run_two_length l2 l1 p2 p1 h2 h1).trans hiff2⟩

/-- Witness for C3: two copies of a concrete valid line with
delimiter-free key fields. -/
theorem C3_key_partition_witness :
    ((processLines [goodLine, goodLine] initState).master_record.length = 1 ↔
      keyFields ⟨"fw", "s", "d", "80", "t", 1, 1, 1, 1⟩ =
        keyFields ⟨"fw", "s", "d", "80", "t", 1, 1, 1, 1⟩) ∧
    ((processLines [goodLine, goodLine] initState).master_record.length = 1 ↔
      keyFields ⟨"fw", "s", "d", "80", "t", 1, 1, 1, 1⟩ =
        keyFields ⟨"fw", "s", "d", "80", "t", 1, 1, 1, 1⟩) :=
  C3_key_partition goodLine goodLine
    ⟨"fw", "s", "d", "80", "t", 1, 1, 1, 1⟩ ⟨"fw", "s", "d", "80", "t", 1, 1, 1, 1⟩
    (by rfl) (by rfl) (by decide) (by decide)

/-- Claim C6: the record under a key carries the source and destination
IPs of the first accepted line contributing to that key, and its key field
equals the map key; a merge never changes the key, source IP or
destination IP of an existing record, modifying only the four counters and
the count. -/
theorem C6_first_writer (lines : List String) (k : String) (p : Parsed)
    (rest : List Parsed) (h : contribs lines k = p :: rest) :
    (∃ r, lookupRec (processLines lines initState).master_record k = some r ∧
       r.key = k ∧ r.source_ip = p.source_ip ∧
       r.destination_ip = p.destination_ip) ∧
    (∀ r q, (mergeRecord r q).key = r.key ∧
       (mergeRecord r q).source_ip = r.source_ip ∧
       (mergeRecord r q).destination_ip = r.destination_ip) :=
  ⟨⟨_, lookup_run_closed h, rfl, rfl, rfl⟩, fun _ _ => ⟨rfl, rfl, rfl⟩⟩

/-- Witness for C6: a one-line run under a concrete key. -/
theorem C6_first_writer_witness :
    (∃ r, lookupRec (processLines [goodLine] initState).master_record
        "fw_s_d_80_t" = some r ∧
       r.key = "fw_s_d_80_t" ∧ r.source_ip = "s" ∧ r.destination_ip = "d") ∧
    (∀ r q, (mergeRecord r q).key = r.key ∧
       (mergeRecord r q).source_ip = r.source_ip ∧
       (mergeRecord r q).destination_ip = r.destination_ip) :=
  C6_first_writer [goodLine] "fw_s_d_80_t"
    ⟨"fw", "s", "d", "80", "t", 1, 1, 1, 1⟩ [] (by decide)

/-- Claim C4: a raw line is accepted exactly when the trimmed,
comma-split line has at least 13 fields, none of the numeric fields at
0-indexed positions 9 to 12 is empty, and all four parse as `u64`
non-negative integers; rejections are classified as MalformedLine for a
short line, MissingCounter for an empty numeric field and InvalidNumber
for a failed numeric parse, and a rejected line leaves the aggregation
table and the accepted-line counter untouched. -/
theorem C4_parser_spec (line : String) :
    ((∃ p, parseLine line = .ok p) ↔
      (13 ≤ (splitLine line).length ∧
       (splitLine line).getD 9 "" ≠ "" ∧ (splitLine line).getD 10 "" ≠ "" ∧
       (splitLine line).getD 11 "" ≠ "" ∧ (splitLine line).getD 12 "" ≠ "" ∧
       (parseU64 ((splitLine line).getD 9 "")).isSome ∧
       (parseU64 ((splitLine line).getD 10 "")).isSome ∧
       (parseU64 ((splitLine line).getD 11 "")).isSome ∧
       (parseU64 ((splitLine line).getD 12 "")).isSome)) ∧
    (parseLine line = .error .MalformedLine ↔ (splitLine line).length < 13) ∧
    (parseLine line = .error .MissingCounter ↔
      (13 ≤ (splitLine line).length ∧
       ((splitLine line).getD 9 "" = "" ∨ (splitLine line).getD 10 "" = "" ∨
        (splitLine line).getD 11 "" = "" ∨ (splitLine line).getD 12 "" = ""))) ∧
    (parseLine line = .error .InvalidNumber ↔
      (13 ≤ (splitLine line).length ∧
       (splitLine line).getD 9 "" ≠ "" ∧ (splitLine line).getD 10 "" ≠ "" ∧
       (splitLine line).getD 11 "" ≠ "" ∧ (splitLine line).getD 12 "" ≠ "" ∧
       (parseU64 ((splitLine line).getD 9 "") = none ∨
        parseU64 ((splitLine line).getD 10 "") = none ∨
        parseU64 ((splitLine line).getD 11 "") = none ∨
        parseU64 ((splitLine line).getD 12 "") = none))) ∧
    (∀ s e, parseLine line = .error e →
      (processLine s line).master_record = s.master_record ∧
      (processLine s line).session_close = s.session_close) := by
  by_cases h13 : (splitLine line).length < 13
  · have hp := parseLine_malformed h13
    have hn : ¬ 13 ≤ (splitLine line).length := by omega
    refine ⟨?_, ?_, ?_, ?_, ?_⟩
    · simp [hp, hn]
    · simp [hp, h13]
    · simp [hp, hn]
    · simp [hp, hn]
    · intro s e _
      constructor <;> simp [processLine, hp]
  · have h13a : 13 ≤ (splitLine line).length := by omega
    by_cases hemp : ((splitLine line).getD 9 "" = "" ∨
        (splitLine line).getD 10 "" = "" ∨
        (splitLine line).getD 11 "" = "" ∨ (splitLine line).getD 12 "" = "")
    · have hp := parseLine_missing h13 hemp
      refine ⟨?_, ?_, ?_, ?_, ?_⟩
      · simp only [hp]
        constructor
        · rintro ⟨p, hpp⟩
          simp at hpp
        · rintro ⟨-, h9, h10, h11, h12, -⟩
          rcases hemp with e | e | e | e
          exacts [absurd e h9, absurd e h10, absurd e h11, absurd e h12]
      · simp [hp, h13]
      · exact ⟨fun _ => ⟨h13a, hemp⟩, fun _ => hp⟩
      · simp only [hp]
        constructor
        · intro h
          simp at h
        · rintro ⟨-, h9, h10, h11, h12, -⟩
          rcases hemp with e | e | e | e
          exacts [absurd e h9, absurd e h10, absurd e h11, absurd e h12]
      · intro s e _
        constructor <;> simp [processLine, hp]
    · have hemp2 := hemp
      push_neg at hemp2
      obtain ⟨hne9, hne10, hne11, hne12⟩ := hemp2
      by_cases hall : (parseU64 ((splitLine line).getD 9 "")).isSome ∧
          (parseU64 ((splitLine line).getD 10 "")).isSome ∧
          (parseU64 ((splitLine line).getD 11 "")).isSome ∧
          (parseU64 ((splitLine line).getD 12 "")).isSome
      · obtain ⟨a, ha⟩ := Option.isSome_iff_exists.mp hall.1
        obtain ⟨b, hb⟩ := Option.isSome_iff_exists.mp hall.2.1
        obtain ⟨c, hc⟩ := Option.isSome_iff_exists.mp hall.2.2.1
        obtain ⟨d, hd⟩ := Option.isSome_iff_exists.mp hall.2.2.2
        have hp := parseLine_ok_of h13 hemp ha hb hc hd
        refine ⟨?_, ?_, ?_, ?_, ?_⟩
        · exact ⟨fun _ => ⟨h13a, hne9, hne10, hne11, hne12,
            hall.1, hall.2.1, hall.2.2.1, hall.2.2.2⟩, fun _ => ⟨_, hp⟩⟩
        · simp [hp, h13]
        · refine ⟨fun h => ?_, fun hh => absurd hh.2 hemp⟩
          rw [hp] at h
          exact absurd h (by simp)
        · refine ⟨fun h => ?_, fun hh => ?_⟩
          · rw [hp] at h
            exact absurd h (by simp)
          · rcases hh.2.2.2.2.2 with e | e | e | e
            · rw [ha] at e
              exact absurd e (by simp)
            · rw [hb] at e
              exact absurd e (by simp)
            · rw [hc] at e
              exact absurd e (by simp)
            · rw [hd] at e
              exact absurd e (by simp)
        · intro s e he
          rw [hp] at he
          exact absurd he (by simp)
      · have hnone : parseU64 ((splitLine line).getD 9 "") = none ∨
            parseU64 ((splitLine line).getD 10 "") = none ∨
            parseU64 ((splitLine line).getD 11 "") = none ∨
            parseU64 ((splitLine line).getD 12 "") = none := by
          simp only [not_and_or, Option.not_isSome_iff_eq_none] at hall
          exact hall
        have hp := parseLine_invalid h13 hemp hnone
        refine ⟨?_, ?_, ?_, ?_, ?_⟩
        · simp only [hp]
          constructor
          · rintro ⟨p, hpp⟩
            simp at hpp
          · rintro ⟨-, -, -, -, -, s9, s10, s11, s12⟩
            rcases hnone with e | e | e | e <;> simp_all
        · simp [hp, h13]
        · refine ⟨fun h => ?_, fun hh => absurd hh.2 hemp⟩
          rw [hp] at h
          exact absurd h (by simp)
        · exact ⟨fun _ => ⟨h13a, hne9, hne10, hne11, hne12, hnone⟩, fun _ => hp⟩
        · intro s e _
          constructor <;> simp [processLine, hp]

/-- Claim C5, counterexample: the `connections` counter is a wrapping
`u64`, so after `2 ^ 64` rejected lines it reads 0, which differs from
`acceptedLines + rejectedLines = 2 ^ 64`. -/
theorem C5_counterexample :
    (processLines (List.replicate M "x") initState).connections = 0 ∧
    (processLines (List.replicate M "x") initState).session_close = 0 ∧
    rejectedCount (List.replicate M "x") = M ∧
    ¬ ((processLines (List.replicate M "x") initState).connections =
        (processLines (List.replicate M "x") initState).session_close +
          rejectedCount (List.replicate M "x")) := by
  have hrej : acceptedLine "x" = false := by decide
  have h := processLines_replicate_rejected hrej M initState (by decide)
  have hcount := rejectedCount_replicate hrej M
  have hM := M_pos
  rw [h, hcount]
  refine ⟨by simp [initState, Nat.mod_self], rfl, rfl, ?_⟩
  simp only [initState, Nat.zero_add, Nat.mod_self]
  omega

/-- Claim C5, amended: `totalLines` holds the number of lines read modulo
`2 ^ 64` and `acceptedLines` the number of accepted lines modulo `2 ^ 64`;
whenever fewer than `2 ^ 64` lines are processed this gives exactly
`totalLines = acceptedLines + rejectedLines`, and a rejected line never
changes the aggregation table. -/
theorem C5_accounting (lines : List String) :
    ((processLines lines initState).connections = lines.length % M ∧
     (processLines lines initState).session_close = acceptedCount lines % M) ∧
    (lines.length < M →
      (processLines lines initState).connections =
        (processLines lines initState).session_close + rejectedCount lines) ∧
    (∀ s l, acceptedLine l = false →
      (processLine s l).master_record = s.master_record) := by
  obtain ⟨hc, hs⟩ := processLines_counters lines initState (by decide) (by decide)
  have hc0 : (processLines lines initState).connections = lines.length % M := by
    rw [hc]
    simp [initState]
  have hs0 : (processLines lines initState).session_close =
      acceptedCount lines % M := by
    rw [hs]
    simp [initState]
  refine ⟨⟨hc0, hs0⟩, ?_, ?_⟩
  · intro hlen
    have hsplit := count_split lines
    have hacc_lt : acceptedCount lines < M := by omega
    rw [hc0, hs0, Nat.mod_eq_of_lt hlen, Nat.mod_eq_of_lt hacc_lt]
    omega
  · intro s l h
    rw [processLine_rejected h]

/-- Witness for C5: a two-line run with one rejected and one accepted
line. -/
theorem C5_accounting_witness :
    (processLines ["x", goodLine] initState).connections =
      (processLines ["x", goodLine] initState).session_close +
        rejectedCount ["x", goodLine] ∧
    (processLine initState "x").master_record = initState.master_record :=
  ⟨(C5_accounting ["x", goodLine]).2.1 (by decide),
   (C5_accounting ["x", goodLine]).2.2 initState "x" (by decide)⟩

/-- Claim C10, counterexample: `count` is a wrapping `u64`, so after
`2 ^ 64` accepted lines under one key the stored record's count reads 0,
violating the claimed invariant that every stored record has count at
least 1. -/
theorem C10_counterexample :
    ∃ r, lookupRec (processLines (List.replicate M goodLine)
        initState).master_record "fw_s_d_80_t" = some r ∧ r.count = 0 := by
  have hp : parseLine goodLine = .ok ⟨"fw", "s", "d", "80", "t", 1, 1, 1, 1⟩ := by
    rfl
  have hk : keyOf (⟨"fw", "s", "d", "80", "t", 1, 1, 1, 1⟩ : Parsed) =
      "fw_s_d_80_t" := by rfl
  have hM := M_pos
  have h := lookup_replicate_count hp hk M (by omega)
  rw [Nat.mod_self] at h
  cases hl : lookupRec (processLines (List.replicate M goodLine)
      initState).master_record "fw_s_d_80_t" with
  | none => rw [hl] at h; simp at h
  | some r =>
    rw [hl] at h
    simp only [Option.map_some', Option.some.injEq] at h
    exact ⟨r, rfl, h⟩

/-- Claim C10, amended: every stored record's key field equals the map key
under which it is stored, and its count equals the number of accepted
lines contributing to that key modulo `2 ^ 64`; in particular the count is
at least 1 whenever fewer than `2 ^ 64` lines have contributed. -/
theorem C10_table_invariant (lines : List String) (k : String) (r : Record)
    (h : lookupRec (processLines lines initState).master_record k = some r) :
    r.key = k ∧ r.count = (contribs lines k).length % M ∧
    ((contribs lines k).length < M → 1 ≤ r.count) := by
  cases hc : contribs lines k with
  | nil =>
    rw [lookup_run_none hc] at h
    exact absurd h (by simp)
  | cons p rest =>
    rw [lookup_run_closed hc] at h
    have h2 := Option.some.inj h
    subst h2
    refine ⟨rfl, ?_, ?_⟩
    · show (1 + rest.length) % M = (p :: rest).length % M
      simp [List.length_cons, Nat.add_comm]
    · intro hlt
      show 1 ≤ (1 + rest.length) % M
      have hx : 1 + rest.length < M := by
        simp only [List.length_cons] at hlt
        omega
      rw [Nat.mod_eq_of_lt hx]
      omega

/-- Witness for C10: a one-line run whose single record has its key field
equal to the map key and count 1. -/
theorem C10_table_invariant_witness :
    (⟨"fw_s_d_80_t", "s", "d", 1, 1, 1, 1, 1⟩ : Record).key = "fw_s_d_80_t" ∧
    (⟨"fw_s_d_80_t", "s", "d", 1, 1, 1, 1, 1⟩ : Record).count =
      (contribs [goodLine] "fw_s_d_80_t").length % M ∧
    1 ≤ (⟨"fw_s_d_80_t", "s", "d", 1, 1, 1, 1, 1⟩ : Record).count :=
  ⟨(C10_table_invariant [goodLine] "fw_s_d_80_t"
      ⟨"fw_s_d_80_t", "s", "d", 1, 1, 1, 1, 1⟩ (by decide)).1,
   (C10_table_invariant [goodLine] "fw_s_d_80_t"
      ⟨"fw_s_d_80_t", "s", "d", 1, 1, 1, 1, 1⟩ (by decide)).2.1,
   (C10_table_invariant [goodLine] "fw_s_d_80_t"
      ⟨"fw_s_d_80_t", "s", "d", 1, 1, 1, 1, 1⟩ (by decide)).2.2 (by decide)⟩

/-- Witness for C4: an empty line is rejected as MalformedLine and leaves
the table untouched, and a concrete valid line is accepted. -/
theorem C4_parser_spec_witness :
    parseLine "a,b" = .error .MalformedLine ∧
    (processLine initState "a,b").master_record = initState.master_record ∧
    (∃ p, parseLine goodLine = .ok p) :=
  ⟨(C4_parser_spec "a,b").2.1.mpr (by decide),
   ((C4_parser_spec "a,b").2.2.2.2 initState .MalformedLine
     ((C4_parser_spec "a,b").2.1.mpr (by decide))).1,
   (C4_parser_spec goodLine).1.mpr (by decide)⟩

/-- Claim C7: processing the same files, with the same lines in each, in
any order yields an aggregation table with the same keys and, for each
key, the same four traffic counters and the same count (the projection
`counterView`; the stored source and destination IPs are deliberately not
compared, as they follow the first writer). -/
theorem C7_order_independence (files1 files2 : List (String × List String))
    (h : files1.Perm files2) (k : String) :
    (lookupRec (processSyslogFiles files1).master_record k).map counterView =
      (lookupRec (processSyslogFiles files2).master_record k).map counterView := by
  have hj : ((files1.map Prod.snd).flatten).Perm ((files2.map Prod.snd).flatten) :=
    (h.map Prod.snd).flatten
  have hcp : (contribs ((files1.map Prod.snd).flatten) k).Perm
      (contribs ((files2.map Prod.snd).flatten) k) := hj.filterMap _
  rw [processSyslogFiles_master files1, processSyslogFiles_master files2]
  cases hc1 : contribs ((files1.map Prod.snd).flatten) k with
  | nil =>
    rw [hc1] at hcp
    have hc2 : contribs ((files2.map Prod.snd).flatten) k = [] :=
      hcp.symm.eq_nil
    rw [lookup_run_none hc1, lookup_run_none hc2]
  | cons p rest =>
    rw [hc1] at hcp
    cases hc2 : contribs ((files2.map Prod.snd).flatten) k with
    | nil =>
      rw [hc2] at hcp
      exact absurd hcp.eq_nil (by simp)
    | cons q rest2 =>
      rw [hc2] at hcp
      rw [lookup_run_closed hc1, lookup_run_closed hc2]
      have hsum1 : p.packets_in + (rest.map Parsed.packets_in).sum =
          q.packets_in + (rest2.map Parsed.packets_in).sum := by
        simpa using (hcp.map Parsed.packets_in).sum_eq
      have hsum2 : p.bytes_in + (rest.map Parsed.bytes_in).sum =
          q.bytes_in + (rest2.map Parsed.bytes_in).sum := by
        simpa using (hcp.map Parsed.bytes_in).sum_eq
      have hsum3 : p.packets_out + (rest.map Parsed.packets_out).sum =
          q.packets_out + (rest2.map Parsed.packets_out).sum := by
        simpa using (hcp.map Parsed.packets_out).sum_eq
      have hsum4 : p.bytes_out + (rest.map Parsed.bytes_out).sum =
          q.bytes_out + (rest2.map Parsed.bytes_out).sum := by
        simpa using (hcp.map Parsed.bytes_out).sum_eq
      have hlen : rest.length = rest2.length := by
        have := hcp.length_eq
        simpa using this
      simp only [Option.map_some', counterView]
      rw [hsum1, hsum2, hsum3, hsum4, hlen]

/-- Witness for C7: the two files of the round-trip scenario in both
orders. -/
theorem C7_order_independence_witness :
    ([("A", [lineA]), ("B", [lineB])] : List (String × List String)).Perm
        [("B", [lineB]), ("A", [lineA])] ∧
    (lookupRec (processSyslogFiles
        [("A", [lineA]), ("B", [lineB])]).master_record
        "__src1_dst1_80_tcp").map counterView =
      (lookupRec (processSyslogFiles
        [("B", [lineB]), ("A", [lineA])]).master_record
        "__src1_dst1_80_tcp").map counterView :=
  ⟨List.Perm.swap ("B", [lineB]) ("A", [lineA]) [],
   C7_order_independence [("A", [lineA]), ("B", [lineB])]
     [("B", [lineB]), ("A", [lineA])]
     (List.Perm.swap ("B", [lineB]) ("A", [lineA]) []) "__src1_dst1_80_tcp"⟩

/-- Claim C8: a run over no files (empty or unreadable directory) leaves
the initial state, so the metadata reports flows 0, totalConnections 0 and
an empty filesProcessed list; the acceptance percentage is the defined NaN
sentinel (0 divided by 0) and the throughput is either NaN or 0, so the
degenerate divisions never abort the run. -/
theorem C8_empty_run (start_time end_time : Nat) :
    (computeMetadata start_time end_time (processSyslogFiles [])).flows = 0 ∧
    (computeMetadata start_time end_time
      (processSyslogFiles [])).totalConnections = 0 ∧
    (computeMetadata start_time end_time
      (processSyslogFiles [])).filesProcessed = [] ∧
    (computeMetadata start_time end_time
      (processSyslogFiles [])).sessionClosePct = FVal.nan ∧
    ((computeMetadata start_time end_time
        (processSyslogFiles [])).connectionsPerSecond = FVal.nan ∨
     (computeMetadata start_time end_time
        (processSyslogFiles [])).connectionsPerSecond = FVal.num 0) := by
  refine ⟨rfl, rfl, rfl, ?_, ?_⟩
  · show FVal.mul (FVal.div (FVal.num ((0 : Nat) : Rat))
      (FVal.num ((0 : Nat) : Rat))) (FVal.num 100) = FVal.nan
    norm_num [FVal.div, FVal.mul]
  · show FVal.div (FVal.num ((0 : Nat) : Rat))
        (FVal.num (((end_time - start_time : Nat) : Rat) / 1000)) = FVal.nan ∨
      FVal.div (FVal.num ((0 : Nat) : Rat))
        (FVal.num (((end_time - start_time : Nat) : Rat) / 1000)) = FVal.num 0
    by_cases he : (((end_time - start_time : Nat) : Rat) / 1000) = 0
    · left
      norm_num [FVal.div, he]
    · right
      norm_num [FVal.div, he]

end RustDP
